import Mathlib

/-!
# Verification of the `commandflags` command-line dispatcher

A shallow embedding of the `commandflags` Go package (the current revision,
the one carrying `renderHelp`, description fields and the `HelpIndent` /
`DefaultWidth` module variables) together with proofs about its resolution
algorithm (`ProcessArgs`) and its help renderer (`renderHelp`).

Modelling conventions:
* Go's `flag.FlagSet` is the external flag primitive.  Its observable pieces
  (name, error-handling mode, the mutable `Usage` hook, the registered flags
  with their kinds, the positional remainder reported by `Args()`, the
  `parsed` bit reported by `Parsed()`) are modelled as plain data; the
  parsing decision itself — which tokens form the flag prefix, which values
  get assigned, whether parsing fails — is kept abstract as a function field
  `parseBehavior`, exactly the abstraction the package relies on.
* Go panics (nil-pointer dereference of a `Flags` handle) are modelled by
  `Option`: a `none` result of `ProcessArgs`/`renderHelp` is a panic.
* A Go `map[string]CommandType` is modelled as an association list; the
  list's arrangement records the iteration order the Go runtime happens to
  choose for a particular `range` loop (Go randomizes this order), while the
  map itself is the arrangement up to permutation.
* Mutation through the `Flags` pointer is modelled by state passing:
  `ProcessArgs` returns the updated tree (each node owning its flag-set).
-/

/-- The dynamic kind of a registered flag's value, as discriminated by the
type switch in `renderHelp` (`f.Value.(flag.Getter).Get().(type)`). -/
inductive FlagKind where
  | kBool
  | kUint
  | kUint64
  | kInt
  | kInt64
  | kString
  | kFloat64
  | kOther
deriving DecidableEq

/-- One registered flag of a flag-set: name, usage text, default, current
value (as text) and the kind of its underlying value.  Mirrors the `Flag`
record of Go's flag package. -/
structure GoFlag where
  name : String
  usage : String
  defValue : String
  value : String
  kind : FlagKind
deriving DecidableEq

/-- The error-handling mode of a `flag.FlagSet` (Go's `flag.ErrorHandling`). -/
inductive ErrorHandling where
  | continueOnError
  | exitOnError
  | panicOnError
deriving DecidableEq

/-- The outcome of one call to the external primitive's `Parse`: which flag
values it assigns, what positional remainder it reports, and whether it
fails (with the raw parser message).  Failure may also assign the values
parsed before the offending token, as Go's parser does. -/
inductive ParseOutcome where
  | success (assignments : List (String × String)) (remaining : List String)
  | failure (assignments : List (String × String)) (remaining : List String) (msg : String)

/-- The value of a flag-set's mutable exported `Usage` hook (a Go
`func()`).  Function identity is modelled by a tag: `noop` is the
no-argument no-op closure `ProcessArgs` installs at every visited node
(`f := func() {}; c.Flags.Usage = f`), `custom` stands for any other hook
the application may have stored there. -/
inductive UsageHook where
  | noop
  | custom (tag : Nat)
deriving DecidableEq

/-- Model of `flag.FlagSet`.  `fsName`, `errorHandling`, the mutable
`Usage` hook, `formal` (the registered flags, in registration order),
`argsOut` (what `Args()` returns after a parse) and the `parsed` bit
(what `Parsed()` reports, set by `Parse`) are observable state;
`parseBehavior` abstracts the external parsing algorithm itself. -/
structure FlagSet where
  fsName : String
  errorHandling : ErrorHandling
  Usage : UsageHook
  formal : List GoFlag
  argsOut : List String
  parsed : Bool
  parseBehavior : List String → ParseOutcome

/-- Models `flag.FlagSet.Init`: resets the set's name and error handling. -/
def FlagSet.Init (fs : FlagSet) (name : String) (eh : ErrorHandling) : FlagSet :=
  { fs with fsName := name, errorHandling := eh }

/-- Assigning one value to the named flag changes only that flag's `value`
field (models `flag.Value.Set` during parsing). -/
def setValue (l : List GoFlag) (n v : String) : List GoFlag :=
  l.map (fun f => if f.name = n then { f with value := v } else f)

/-- Applies the assignments a parse produced, in order. -/
def applyAssignments (l : List GoFlag) (as : List (String × String)) : List GoFlag :=
  as.foldl (fun acc nv => setValue acc nv.1 nv.2) l

/-- Models `flag.FlagSet.Parse`: sets the `parsed` bit, consults the
external parsing decision, stores the assigned values and the positional
remainder in the set, and reports the raw error message if parsing
failed. -/
def FlagSet.Parse (fs : FlagSet) (args : List String) : FlagSet × Option String :=
  match fs.parseBehavior args with
  | .success as rem =>
      ({ fs with formal := applyAssignments fs.formal as, argsOut := rem,
                 parsed := true }, none)
  | .failure as rem m =>
      ({ fs with formal := applyAssignments fs.formal as, argsOut := rem,
                 parsed := true }, some m)

/-- One point of the command tree (`CommandType` in the source).  `Flags` is
an optional handle — the public struct permits a nil `*flag.FlagSet`, and
the bundled example builds several sub-commands without one.  `SubCommands`
is the map of children as an association list (see the header note on
iteration order). -/
inductive CommandType where
  | mk (Name ShortDesc LongDesc Help : String)
      (Flags : Option FlagSet)
      (SubCommands : List (String × CommandType))

/-- Field accessor: the command's name. -/
def CommandType.Name : CommandType → String
  | .mk n _ _ _ _ _ => n

/-- Field accessor: the short description. -/
def CommandType.ShortDesc : CommandType → String
  | .mk _ sd _ _ _ _ => sd

/-- Field accessor: the long description. -/
def CommandType.LongDesc : CommandType → String
  | .mk _ _ ld _ _ _ => ld

/-- Field accessor: the trailing help text. -/
def CommandType.Help : CommandType → String
  | .mk _ _ _ h _ _ => h

/-- Field accessor: the (possibly nil) flag-set handle. -/
def CommandType.Flags : CommandType → Option FlagSet
  | .mk _ _ _ _ fl _ => fl

/-- Field accessor: the sub-command map. -/
def CommandType.SubCommands : CommandType → List (String × CommandType)
  | .mk _ _ _ _ _ subs => subs

/-- Replaces the node's flag-set handle (models mutation through the
`Flags` pointer). -/
def CommandType.setFlags : CommandType → Option FlagSet → CommandType
  | .mk n sd ld h _ subs, fl => .mk n sd ld h fl subs

/-- Models `NewCommandType`: name and flag-set, empty sub-command map. -/
def NewCommandType (name : String) (flags : Option FlagSet) : CommandType :=
  .mk name "" "" "" flags []

/-- Map lookup `c.SubCommands[key]` on the association-list model. -/
def lookupSub : List (String × CommandType) → String → Option CommandType
  | [], _ => none
  | (k, sc) :: rest, key => if k = key then some sc else lookupSub rest key

/-- Replaces the entry of the given key (models that the resolved child's
flag-set is the one object mutated through its pointer). -/
def updateEntry : List (String × CommandType) → String → CommandType →
    List (String × CommandType)
  | [], _, _ => []
  | (k, sc) :: rest, key, sc2 =>
      if k = key then (k, sc2) :: rest else (k, sc) :: updateEntry rest key sc2

/-- Replaces the child of the given key inside the node. -/
def CommandType.updateSubCmd : CommandType → String → CommandType → CommandType
  | .mk n sd ld h fl subs, key, sc2 => .mk n sd ld h fl (updateEntry subs key sc2)

/-- Module variable `HelpIndent` (indent of nested help blocks). -/
def HelpIndent : Int := 2

/-- Module variable `DefaultWidth` (assumed screen width). -/
def DefaultWidth : Int := 80

/-- A run of `n` spaces (Go's padding `%*s` with an empty string). -/
def spaces (n : Nat) : String :=
  String.mk (List.replicate n ' ')

/-- Left-justified padding to width `w` (Go's `%-*s`). -/
def padRight (w : Nat) (s : String) : String :=
  s ++ spaces (w - s.length)

/-- Concatenation of a list of strings. -/
def joinAll : List String → String
  | [] => ""
  | s :: rest => s ++ joinAll rest

/-- Interleaves a separator between the strings of a list. -/
def joinSep (sep : String) : List String → String
  | [] => ""
  | [s] => s
  | s :: rest => s ++ sep ++ joinSep sep rest

/-- Whitespace test used when splitting text into words. -/
def isWS (c : Char) : Bool :=
  c = ' ' || c = '\n' || c = '\t'

/-- Splits a character list into maximal whitespace-free words. -/
def wordsAux : List Char → List Char → List String
  | [], cur => if cur.isEmpty then [] else [String.mk cur.reverse]
  | ch :: rest, cur =>
      if isWS ch then
        if cur.isEmpty then wordsAux rest []
        else String.mk cur.reverse :: wordsAux rest []
      else wordsAux rest (ch :: cur)

/-- The whitespace-separated words of a string. -/
def splitWords (s : String) : List String :=
  wordsAux s.data []

/-- Splits a character list at newline characters. -/
def linesAux : List Char → List Char → List String
  | [], cur => [String.mk cur.reverse]
  | ch :: rest, cur =>
      if ch = '\n' then String.mk cur.reverse :: linesAux rest []
      else linesAux rest (ch :: cur)

/-- The newline-separated lines of a string. -/
def splitLines (s : String) : List String :=
  linesAux s.data []

/-- Greedy line filling: keeps appending words to the current line while it
stays within the width; a word longer than the width ends up alone on its
own line, never split. -/
def fillAux (w : Nat) : String → List String → List String
  | cur, [] => [cur]
  | cur, y :: ys =>
      if cur.length + 1 + y.length ≤ w then fillAux w (cur ++ " " ++ y) ys
      else cur :: fillAux w y ys

/-- Greedy word wrap of a word list into lines of width at most `w`
(except for single oversized words). -/
def fillLines (w : Nat) : List String → List String
  | [] => []
  | x :: xs => fillAux w x xs

/-- Modelled from the spec: the formatting style of the external `refmt`
library (its source is not part of this repository).  Only the two fields
`renderHelp` assigns are carried; every use site sets both before use. -/
structure Style where
  IndentWidth : Int
  MaxWidth : Int

/-- Modelled from the spec: `refmt.NewStyle()`.  The defaults are
irrelevant here because `renderHelp` overwrites both fields of every style
it creates before using it. -/
def NewStyle : Style :=
  { IndentWidth := 2, MaxWidth := 80 }

/-- Modelled from the spec: `refmt`'s word wrap — break at whitespace, fill
lines up to `MaxWidth`, place an oversized token alone on its own line. -/
def Style.Wrap (st : Style) (s : String) : String :=
  joinSep "\n" (fillLines st.MaxWidth.toNat (splitWords s))

/-- Modelled from the spec: `refmt`'s `Indent` — prefix every line with
`IndentWidth` spaces. -/
def Style.Indent (st : Style) (s : String) : String :=
  joinSep "\n" ((splitLines s).map (fun l => spaces st.IndentWidth.toNat ++ l))

/-- Modelled from the spec: `refmt`'s `Indent2` — prefix every continuation
line (all but the first) with `IndentWidth` spaces, giving the hanging
indent of a column layout. -/
def Style.Indent2 (st : Style) (s : String) : String :=
  match splitLines s with
  | [] => ""
  | l0 :: rest => joinSep "\n" (l0 :: rest.map (fun l => spaces st.IndentWidth.toNat ++ l))

/-- The type label of a flag's help line, exactly the type switch inside
`renderHelp`'s `appendFlag` closure: booleans get no label, `uint`/`uint64`
get `UINT`, `int`/`int64` get `INT`, strings `STRING`, `float64` `FLOAT`,
anything else `VALUE`. -/
def flagLabel : FlagKind → String
  | .kBool => ""
  | .kUint => "UINT"
  | .kUint64 => "UINT"
  | .kInt => "INT"
  | .kInt64 => "INT"
  | .kString => "STRING"
  | .kFloat64 => "FLOAT"
  | .kOther => "VALUE"

/-- Lexicographic comparison of character sequences (by code point), the
order in which Go's `sort.Sort(byName(...))` compares flag names. -/
def lexLE : List Char → List Char → Bool
  | [], _ => true
  | _ :: _, [] => false
  | a :: as, b :: bs =>
      if a.toNat < b.toNat then true
      else if b.toNat < a.toNat then false
      else lexLE as bs

/-- Lexicographic comparison is total. -/
theorem lexLE_total : ∀ as bs, lexLE as bs = true ∨ lexLE bs as = true := by
  intro as
  induction as with
  | nil => intro bs; left; rfl
  | cons a as ih =>
    intro bs
    cases bs with
    | nil => right; rfl
    | cons b bs =>
      simp only [lexLE]
      by_cases h1 : a.toNat < b.toNat
      · left; simp [h1]
      · by_cases h2 : b.toNat < a.toNat
        · right; simp [h2]
        · have := ih bs
          simp [h1, h2]
          exact this

/-- Lexicographic comparison is transitive. -/
theorem lexLE_trans :
    ∀ as bs cs, lexLE as bs = true → lexLE bs cs = true → lexLE as cs = true := by
  intro as
  induction as with
  | nil => intro bs cs _ _; rfl
  | cons a as ih =>
    intro bs cs h1 h2
    cases bs with
    | nil => simp [lexLE] at h1
    | cons b bs =>
      cases cs with
      | nil => simp [lexLE] at h2
      | cons c cs =>
        simp only [lexLE] at h1 h2 ⊢
        by_cases hab : a.toNat < b.toNat <;> by_cases hbc : b.toNat < c.toNat <;>
          by_cases hba : b.toNat < a.toNat <;> by_cases hcb : c.toNat < b.toNat <;>
          simp [hab, hbc, hba, hcb] at h1 h2 ⊢ <;>
          first
            | omega
            | (have hac : a.toNat < c.toNat := by omega; simp [hac])
            | (have hac : ¬ a.toNat < c.toNat := by omega
               have hca : ¬ c.toNat < a.toNat := by omega
               simp [hac, hca]
               first
                 | exact ih bs cs h1 h2
                 | exact ⟨by omega, ih bs cs h1 h2⟩)

/-- The lexicographic order on flags by name by which Go's
`flag.FlagSet.VisitAll` enumerates the registered flags. -/
def flagLE (f g : GoFlag) : Prop :=
  lexLE f.name.data g.name.data = true

instance : DecidableRel flagLE := fun f g =>
  inferInstanceAs (Decidable (lexLE f.name.data g.name.data = true))

instance : IsTotal GoFlag flagLE :=
  ⟨fun a b => lexLE_total a.name.data b.name.data⟩

instance : IsTrans GoFlag flagLE :=
  ⟨fun a b c h1 h2 => lexLE_trans a.name.data b.name.data c.name.data h1 h2⟩

/-- Models Go's `flag.FlagSet.VisitAll` enumeration order: the registered
flags sorted lexicographically by name (the documented behavior of the
standard library's `VisitAll`). -/
def sortFlags (l : List GoFlag) : List GoFlag :=
  List.insertionSort flagLE l

/-- The maximum of `len(name) + len(label)` over the visited flags
(`maxFlagWidth` accumulated inside `appendFlag`). -/
def maxFlagWidth (flags : List GoFlag) : Nat :=
  flags.foldl (fun m f => max m (f.name.length + (flagLabel f.kind).length)) 0

/-- One line of the flag block:
`fmt.Sprintf("%-*s%s\n", flagColWidth, fmt.Sprintf("%*s-%s %s", HelpIndent, "", f.Name, label), flagStyle.Indent2(flagStyle.Wrap(f.Usage)))`. -/
def flagLine (flagColWidth : Nat) (flagStyle : Style) (f : GoFlag) : String :=
  padRight flagColWidth
      (spaces HelpIndent.toNat ++ "-" ++ f.name ++ " " ++ flagLabel f.kind)
    ++ flagStyle.Indent2 (flagStyle.Wrap f.usage) ++ "\n"

/-- The description block of `renderHelp`: prefer `LongDesc`, else
`ShortDesc`, else emit nothing. -/
def descBlock (c : CommandType) (width : Int) : String :=
  let style : Style := { IndentWidth := HelpIndent, MaxWidth := width - HelpIndent }
  if c.LongDesc.length > 0 then style.Indent (style.Wrap c.LongDesc) ++ "\n\n"
  else if c.ShortDesc.length > 0 then style.Indent (style.Wrap c.ShortDesc) ++ "\n\n"
  else ""

/-- The flag block of `renderHelp`, over the flag enumeration `flags`
(the order `VisitAll` delivered): optional `flags:` sub-header, then one
line per flag, the usage column starting at the shared `flagColWidth`. -/
def flagsBlock (c : CommandType) (flags : List GoFlag) (width : Int) : String :=
  let flagColWidth : Nat := maxFlagWidth flags + 6
  let flagStyle : Style :=
    { MaxWidth := width - (flagColWidth : Int), IndentWidth := (flagColWidth : Int) }
  (if flags.length > 0 then spaces HelpIndent.toNat ++ c.Name ++ " flags:\n" else "")
    ++ joinAll (flags.map (flagLine flagColWidth flagStyle))

/-- The sub-command block of `renderHelp`: emitted only when the map is
non-empty (the source returns early otherwise); one line per child in the
map's iteration order, the child's `Name` field left-justified to the
widest child name, then its wrapped `ShortDesc`. -/
def subsBlock (c : CommandType) (width : Int) : String :=
  if c.SubCommands.length < 1 then ""
  else
    let maxSubcmdWidth : Nat := c.SubCommands.foldl (fun m kv => max m kv.2.Name.length) 0
    let cmdStyle : Style :=
      { MaxWidth := width - (HelpIndent + (maxSubcmdWidth : Int) + 2),
        IndentWidth := HelpIndent + (maxSubcmdWidth : Int) + 2 }
    "\n" ++ spaces HelpIndent.toNat ++ c.Name ++ " sub-commands:\n"
      ++ joinAll (c.SubCommands.map (fun kv =>
          spaces HelpIndent.toNat ++ padRight maxSubcmdWidth kv.2.Name ++ "  "
            ++ cmdStyle.Indent2 (cmdStyle.Wrap kv.2.ShortDesc) ++ "\n"))

/-- The body of `renderHelp` once the flag enumeration is fixed: header
line, description block, flag block, sub-command block. -/
def renderHelpOver (c : CommandType) (flags : List GoFlag) (width : Int) : String :=
  "Command: " ++ c.Name ++ "\n" ++ descBlock c width
    ++ flagsBlock c flags width ++ subsBlock c width

/-- `renderHelp` on a node whose flag-set handle is non-nil: the flag
enumeration is `VisitAll`'s lexicographic order over the registered
flags. -/
def renderHelpCore (c : CommandType) (fs : FlagSet) (width : Int) : String :=
  renderHelpOver c (sortFlags fs.formal) width

/-- Models the method `renderHelp` itself: calling it with a nil `Flags`
handle dereferences nil inside `VisitAll` (a panic, `none`); otherwise it
produces the rendered text. -/
def CommandType.renderHelp (c : CommandType) (width : Int) : Option String :=
  match c.Flags with
  | none => none
  | some fs => some (renderHelpCore c fs width)

/-- The three error kinds of the package's error taxonomy (the concrete
wrapper structs `FlagError`, `MissingCommandError`, `InvalidCommandError`
around `UsageError`). -/
inductive ErrKind where
  | flagError
  | missingCommandError
  | invalidCommandError
deriving DecidableEq

/-- The resolution error: kind tag plus the `UsageError` payload — message
`e`, back-reference `c` to the offended node (its state at the moment the
error is built), and the argument slice `a` being processed there. -/
structure UsageError where
  kind : ErrKind
  e : String
  c : CommandType
  a : List String

/-- The `FlagError` built on a parse failure: its message is the node's
rendered help (`fmt.Sprintf("%s", c.renderHelp(DefaultWidth))`), not the
raw parser message. -/
def mkFlagError (c2 : CommandType) (fs2 : FlagSet) (args : List String) : UsageError :=
  { kind := .flagError, e := renderHelpCore c2 fs2 DefaultWidth, c := c2, a := args }

/-- The `MissingCommandError` built when sub-commands exist but no
positional token remains. -/
def mkMissingError (c2 : CommandType) (fs2 : FlagSet) (args : List String) : UsageError :=
  { kind := .missingCommandError,
    e := "Missing COMMAND:\n" ++ renderHelpCore c2 fs2 DefaultWidth, c := c2, a := args }

/-- The `InvalidCommandError` built when the first positional token matches
no sub-command key; the bad token is echoed in the message. -/
def mkInvalidError (c2 : CommandType) (fs2 : FlagSet) (hd : String)
    (args : List String) : UsageError :=
  { kind := .invalidCommandError,
    e := "Invalid COMMAND: " ++ hd ++ "\n" ++ renderHelpCore c2 fs2 DefaultWidth,
    c := c2, a := args }

/-- A successful lookup finds a structurally smaller tree. -/
theorem lookupSub_sizeOf :
    ∀ (l : List (String × CommandType)) (k : String) (sc : CommandType),
      lookupSub l k = some sc → sizeOf sc < sizeOf l := by
  intro l
  induction l with
  | nil => intro k sc h; simp [lookupSub] at h
  | cons p rest ih =>
    intro k sc h
    obtain ⟨k1, sc1⟩ := p
    simp only [lookupSub] at h
    by_cases hk : k1 = k
    · rw [if_pos hk] at h
      cases h
      simp
      omega
    · rw [if_neg hk] at h
      have := ih k sc h
      simp
      omega

/-- The sub-command list is structurally smaller than its node. -/
theorem subCommands_sizeOf (c : CommandType) : sizeOf c.SubCommands < sizeOf c := by
  cases c
  simp [CommandType.SubCommands]

/-- Models the method `ProcessArgs` (the recursive resolution algorithm).
A `none` result is a Go panic: the nil `Flags` handle is dereferenced by
`Flags.Init` before any error can be returned.  Before parsing, the
visited node's flag-set is reconfigured exactly as the source does:
`c.Flags.Init(c.Name, flag.ContinueOnError)` followed by
`c.Flags.Usage = f` with `f` the noop closure.  A `some (c2, path, err)`
result carries the tree after the call's mutations (`c2`), the resolved
path, and the optional resolution error. -/
def CommandType.ProcessArgs (c : CommandType) (args : List String) :
    Option (CommandType × List String × Option UsageError) :=
  match c.Flags with
  | none => none
  | some fs =>
    match ({ fs.Init c.Name .continueOnError with Usage := UsageHook.noop }).Parse args with
    | (fs2, some _m) =>
        let c2 := c.setFlags (some fs2)
        some (c2, [c.Name], some (mkFlagError c2 fs2 args))
    | (fs2, none) =>
        let c2 := c.setFlags (some fs2)
        let remaining := fs2.argsOut
        if c.SubCommands.isEmpty then
          some (c2, c.Name :: remaining, none)
        else
          match remaining with
          | [] => some (c2, [c.Name], some (mkMissingError c2 fs2 args))
          | hd :: tl =>
            match hlk : lookupSub c.SubCommands hd with
            | none => some (c2, [c.Name], some (mkInvalidError c2 fs2 hd args))
            | some sc =>
              match sc.ProcessArgs tl with
              | none => none
              | some (sc2, cp, err) =>
                  some (c2.updateSubCmd hd sc2, c.Name :: cp, err)
termination_by sizeOf c
decreasing_by
  have h1 := lookupSub_sizeOf c.SubCommands hd sc hlk
  have h2 := subCommands_sizeOf c
  omega

/-! ## Witness fixtures: concrete parse behaviors and flag-sets -/

/-- Parse behavior of a flag-set confronted with an argument vector with no
leading dash tokens: nothing assigned, everything positional. -/
def demoParse : List String → ParseOutcome :=
  fun a => .success [] a

/-- Parse behavior that rejects every argument vector, with a fixed raw
parser message (as Go's parser produces for an unregistered flag). -/
def demoFailParse : List String → ParseOutcome :=
  fun a => .failure [] a "flag provided but not defined: -bogus"

/-- An empty flag-set as the example program builds one:
`flag.NewFlagSet("flags", flag.ContinueOnError)` (no registered flags). -/
def demoFS : FlagSet :=
  { fsName := "flags", errorHandling := .exitOnError, Usage := .custom 0,
    formal := [], argsOut := [], parsed := false, parseBehavior := demoParse }

/-- The state of `demoFS` after `Init nm ContinueOnError` followed by a
successful parse leaving `rem` positional. -/
def demoFSAfter (nm : String) (rem : List String) : FlagSet :=
  { fsName := nm, errorHandling := .continueOnError, Usage := .noop,
    formal := [], argsOut := rem, parsed := true, parseBehavior := demoParse }

/-! ## C1 — leaf resolution returns the positionals verbatim -/

/-- C1: for every leaf node (empty `SubCommands`) and every argument vector
whose flag parse succeeds, `ProcessArgs` returns the path `[node.Name]`
followed by all leftover positional tokens verbatim and in order, with no
error. -/
theorem c1_leaf_returns_positionals (c : CommandType) (fs fs2 : FlagSet)
    (args : List String)
    (hf : c.Flags = some fs) (hleaf : c.SubCommands = [])
    (hp : ({ fs.Init c.Name .continueOnError with Usage := UsageHook.noop }).Parse args = (fs2, none)) :
    c.ProcessArgs args = some (c.setFlags (some fs2), c.Name :: fs2.argsOut, none) := by
  cases c with
  | mk n sd ld h fl subs =>
    simp only [CommandType.Flags] at hf
    subst hf
    simp only [CommandType.SubCommands] at hleaf
    subst hleaf
    simp only [CommandType.Name] at hp
    unfold CommandType.ProcessArgs
    simp only [CommandType.Flags, CommandType.Name, CommandType.SubCommands,
      CommandType.setFlags]
    rw [hp]
    simp

/-- C1 witness node: a leaf named `n` owning an empty flag-set. -/
def c1wNode : CommandType :=
  .mk "n" "" "" "" (some demoFS) []

/-- C1 witness: resolving the leaf on `["a", "b"]` yields the path
`["n", "a", "b"]` and no error. -/
theorem c1_witness :
    c1wNode.ProcessArgs ["a", "b"] =
      some (c1wNode.setFlags (some (demoFSAfter "n" ["a", "b"])), ["n", "a", "b"], none) :=
  c1_leaf_returns_positionals c1wNode demoFS (demoFSAfter "n" ["a", "b"])
    ["a", "b"] rfl rfl rfl

/-! ## C4 — parse failure yields a FlagError carrying the rendered help -/

/-- C4: for every node and every argument vector the flag primitive rejects
(whatever the raw parser message `m` says), `ProcessArgs` returns
`([node.Name], FlagError)` whose message is the node's rendered help text,
not the raw parser message. -/
theorem c4_flag_error_uses_rendered_help (c : CommandType) (fs fs2 : FlagSet)
    (args : List String) (m : String)
    (hf : c.Flags = some fs)
    (hp : ({ fs.Init c.Name .continueOnError with Usage := UsageHook.noop }).Parse args = (fs2, some m)) :
    c.ProcessArgs args =
      some (c.setFlags (some fs2), [c.Name],
        some { kind := .flagError,
               e := renderHelpCore (c.setFlags (some fs2)) fs2 DefaultWidth,
               c := c.setFlags (some fs2), a := args }) := by
  cases c with
  | mk n sd ld h fl subs =>
    simp only [CommandType.Flags] at hf
    subst hf
    simp only [CommandType.Name] at hp
    unfold CommandType.ProcessArgs
    simp only [CommandType.Flags, CommandType.Name, CommandType.setFlags]
    rw [hp]
    simp [mkFlagError, CommandType.setFlags]

/-- C4 witness fixtures: a flag-set whose parse always fails. -/
def c4wFS : FlagSet :=
  { fsName := "flags", errorHandling := .exitOnError, Usage := .custom 0,
    formal := [], argsOut := [], parsed := false, parseBehavior := demoFailParse }

/-- C4 witness node. -/
def c4wNode : CommandType :=
  .mk "n" "" "" "" (some c4wFS) []

/-- C4 witness: the failing flag-set after `Init` and the failed parse. -/
def c4wFS2 : FlagSet :=
  { fsName := "n", errorHandling := .continueOnError, Usage := .noop,
    formal := [], argsOut := ["-bogus"], parsed := true,
    parseBehavior := demoFailParse }

/-- C4 witness: on a rejected vector the result is a `FlagError` whose
message is the rendered help of the node. -/
theorem c4_witness :
    c4wNode.ProcessArgs ["-bogus"] =
      some (c4wNode.setFlags (some c4wFS2), ["n"],
        some { kind := .flagError,
               e := renderHelpCore (c4wNode.setFlags (some c4wFS2)) c4wFS2 DefaultWidth,
               c := c4wNode.setFlags (some c4wFS2), a := ["-bogus"] }) :=
  c4_flag_error_uses_rendered_help c4wNode c4wFS c4wFS2 ["-bogus"]
    "flag provided but not defined: -bogus" rfl rfl

/-! ## C2 — missing vs. invalid sub-command errors -/

/-- C2: for every node with non-empty `SubCommands` whose flag parse
succeeds: with no positional token left, `ProcessArgs` returns
`([node.Name], MissingCommandError)` with message
`"Missing COMMAND:\n" ++ rendered help`; with a first positional token that
is not a key of `SubCommands`, it returns `([node.Name],
InvalidCommandError)` with message `"Invalid COMMAND: " ++ token ++ "\n" ++
rendered help`.  The two guards (`argsOut = []` versus `argsOut = hd :: tl`)
are mutually exclusive, and the kinds raised are distinct. -/
theorem c2_missing_and_invalid (c : CommandType) (fs fs2 : FlagSet)
    (args : List String)
    (hf : c.Flags = some fs) (hsub : c.SubCommands ≠ [])
    (hp : ({ fs.Init c.Name .continueOnError with Usage := UsageHook.noop }).Parse args = (fs2, none)) :
    (fs2.argsOut = [] →
      c.ProcessArgs args =
        some (c.setFlags (some fs2), [c.Name],
          some { kind := .missingCommandError,
                 e := "Missing COMMAND:\n"
                   ++ renderHelpCore (c.setFlags (some fs2)) fs2 DefaultWidth,
                 c := c.setFlags (some fs2), a := args })) ∧
    (∀ hd tl, fs2.argsOut = hd :: tl → lookupSub c.SubCommands hd = none →
      c.ProcessArgs args =
        some (c.setFlags (some fs2), [c.Name],
          some { kind := .invalidCommandError,
                 e := "Invalid COMMAND: " ++ hd ++ "\n"
                   ++ renderHelpCore (c.setFlags (some fs2)) fs2 DefaultWidth,
                 c := c.setFlags (some fs2), a := args })) ∧
    ErrKind.missingCommandError ≠ ErrKind.invalidCommandError := by
  cases c with
  | mk n sd ld h fl subs =>
    simp only [CommandType.Flags] at hf
    subst hf
    simp only [CommandType.SubCommands] at hsub ⊢
    simp only [CommandType.Name] at hp ⊢
    have hempty : subs.isEmpty = false := by
      cases subs with
      | nil => exact absurd rfl hsub
      | cons a l => rfl
    refine ⟨?_, ?_, by decide⟩
    · intro hrem
      unfold CommandType.ProcessArgs
      simp only [CommandType.Flags, CommandType.Name, CommandType.SubCommands,
        CommandType.setFlags]
      rw [hp]
      simp [hempty, hrem, mkMissingError, CommandType.setFlags]
    · intro hd tl hrem hlk
      unfold CommandType.ProcessArgs
      simp only [CommandType.Flags, CommandType.Name, CommandType.SubCommands,
        CommandType.setFlags]
      rw [hp]
      simp only [hempty, hrem]
      split
      · next hcontra => simp at hcontra
      · split
        · rfl
        · next sc heq =>
            rw [hlk] at heq
            cases heq

/-- C2 witness: a leaf child. -/
def c2wLeaf : CommandType :=
  .mk "x" "a child" "" "" (some demoFS) []

/-- C2 witness node: one sub-command `x`, empty flag-set. -/
def c2wNode : CommandType :=
  .mk "n" "" "" "" (some demoFS) [("x", c2wLeaf)]

/-- C2 witness: with no positional token remaining, the node with
sub-commands raises the `MissingCommandError` with the rendered help in
its message. -/
theorem c2_witness :
    c2wNode.ProcessArgs [] =
      some (c2wNode.setFlags (some (demoFSAfter "n" [])), ["n"],
        some { kind := .missingCommandError,
               e := "Missing COMMAND:\n"
                 ++ renderHelpCore (c2wNode.setFlags (some (demoFSAfter "n" [])))
                      (demoFSAfter "n" []) DefaultWidth,
               c := c2wNode.setFlags (some (demoFSAfter "n" [])), a := [] }) :=
  (c2_missing_and_invalid c2wNode demoFS (demoFSAfter "n" []) [] rfl
    (by simp [c2wNode, CommandType.SubCommands]) rfl).1 rfl

/-! ## C10 — a nil flag-set handle panics instead of returning an error -/

/-- C10: `ProcessArgs` is well-defined only when the visited node carries a
non-nil flag-set handle: on every node whose `Flags` field is nil the call
dereferences the nil handle during `Flags.Init`/`Flags.Parse` — a panic,
modelled as `none` — instead of returning any `ResolutionError`. -/
theorem c10_nil_flags_handle_panics (c : CommandType) (args : List String)
    (hf : c.Flags = none) :
    c.ProcessArgs args = none := by
  cases c with
  | mk n sd ld h fl subs =>
    simp only [CommandType.Flags] at hf
    subst hf
    unfold CommandType.ProcessArgs
    simp [CommandType.Flags]

/-- C10 witness node: the `help` sub-command exactly as the bundled example
constructs it — descriptions but no `Flags` handle. -/
def c10wNode : CommandType :=
  .mk "help" "Show help for a command" "Help usage:  help COMMAND"
    "Valid commands are deploy, create, update, show, list_artifacts, and deployments"
    none []

/-- C10 witness: resolving the example's `help` node panics (no
`ResolutionError` is produced). -/
theorem c10_witness : c10wNode.ProcessArgs [] = none :=
  c10_nil_flags_handle_panics c10wNode [] rfl

/-! ## C8 — the renderer is total and omits absent blocks -/

/-- C8: for every node holding a flag-set and every width, `renderHelp`
returns a string (it cannot fail); absent descriptions render the empty
description block, an empty flag-set renders the empty flag block, and an
empty sub-command map renders the empty sub-command block, so the
corresponding sections are simply omitted. -/
theorem c8_render_total_and_omits_blocks (c : CommandType) (fs : FlagSet)
    (w : Int) (hf : c.Flags = some fs) :
    c.renderHelp w = some (renderHelpOver c (sortFlags fs.formal) w) ∧
    (c.LongDesc = "" → c.ShortDesc = "" → descBlock c w = "") ∧
    (fs.formal = [] → flagsBlock c (sortFlags fs.formal) w = "") ∧
    (c.SubCommands = [] → subsBlock c w = "") := by
  refine ⟨?_, ?_, ?_, ?_⟩
  · simp [CommandType.renderHelp, hf, renderHelpCore]
  · intro h1 h2
    simp [descBlock, h1, h2]
  · intro h1
    simp [flagsBlock, h1, sortFlags, List.insertionSort, joinAll]
  · intro h1
    simp [subsBlock, h1]

/-- C8 witness node: no descriptions, no registered flags, no
sub-commands. -/
def c8wNode : CommandType :=
  .mk "bare" "" "" "" (some demoFS) []

/-- C8 witness: rendering the bare node succeeds and all three optional
blocks are empty. -/
theorem c8_witness :
    c8wNode.renderHelp 80 = some (renderHelpOver c8wNode (sortFlags demoFS.formal) 80) ∧
    (c8wNode.LongDesc = "" → c8wNode.ShortDesc = "" → descBlock c8wNode 80 = "") ∧
    (demoFS.formal = [] → flagsBlock c8wNode (sortFlags demoFS.formal) 80 = "") ∧
    (c8wNode.SubCommands = [] → subsBlock c8wNode 80 = "") :=
  c8_render_total_and_omits_blocks c8wNode demoFS 80 rfl

/-! ## C6 — flag type labels -/

/-- The label mapping exactly as claim C6 words it: boolean no label,
*every* integer-like kind `INT`, floating-point `FLOAT`, string `STRING`,
anything else `VALUE` (refinement comparison against `flagLabel`). -/
def claimC6Label : FlagKind → String
  | .kBool => ""
  | .kUint => "INT"
  | .kUint64 => "INT"
  | .kInt => "INT"
  | .kInt64 => "INT"
  | .kString => "STRING"
  | .kFloat64 => "FLOAT"
  | .kOther => "VALUE"

/-- C6 counterexample: on the unsigned kinds the source's label switch
emits `UINT`, not the `INT` the claim requires. -/
theorem c6_counterexample :
    flagLabel .kUint = "UINT" ∧ flagLabel .kUint64 = "UINT" ∧
    claimC6Label .kUint = "INT" ∧
    flagLabel .kUint ≠ claimC6Label .kUint := by
  decide

/-- The amended label mapping: boolean no label, unsigned integer kinds
(`uint`, `uint64`) `UINT`, signed integer kinds (`int`, `int64`) `INT`,
floating-point `FLOAT`, string `STRING`, anything else `VALUE`. -/
def claimC6LabelAmended : FlagKind → String
  | .kBool => ""
  | .kUint => "UINT"
  | .kUint64 => "UINT"
  | .kInt => "INT"
  | .kInt64 => "INT"
  | .kString => "STRING"
  | .kFloat64 => "FLOAT"
  | .kOther => "VALUE"

/-- C6 (amended): the label emitted in a flag's help line is determined by
the flag's underlying value kind exactly by the amended mapping, and the
rendered line indeed carries that label between the dashed name and the
wrapped usage column. -/
theorem c6_labels_amended :
    (∀ k, flagLabel k = claimC6LabelAmended k) ∧
    (∀ w st f, flagLine w st f =
      padRight w (spaces HelpIndent.toNat ++ "-" ++ f.name ++ " " ++ flagLabel f.kind)
        ++ st.Indent2 (st.Wrap f.usage) ++ "\n") := by
  constructor
  · intro k
    cases k <;> rfl
  · intro w st f
    rfl

/-! ## C7 — flag ordering in the rendered block -/

/-- The renderer as claim C7 words it: the flag block iterates the flags in
their natural registration order (refinement comparison against
`renderHelpCore`, which iterates them in `VisitAll`'s order). -/
def renderHelpDeclOrder (c : CommandType) (fs : FlagSet) (width : Int) : String :=
  renderHelpOver c fs.formal width

/-- C7 counterexample flag registered first. -/
def c7zFlag : GoFlag :=
  { name := "z", usage := "zed", defValue := "", value := "", kind := .kBool }

/-- C7 counterexample flag registered second. -/
def c7aFlag : GoFlag :=
  { name := "a", usage := "ay", defValue := "", value := "", kind := .kBool }

/-- C7 counterexample flag-set: `z` registered before `a`. -/
def c7wFS : FlagSet :=
  { fsName := "f", errorHandling := .continueOnError, Usage := .custom 0,
    formal := [c7zFlag, c7aFlag], argsOut := [], parsed := false,
    parseBehavior := demoParse }

/-- C7 counterexample node. -/
def c7wNode : CommandType :=
  .mk "n" "" "" "" (some c7wFS) []

/-- C7 counterexample: with registration order `[z, a]` the rendered help
differs from what the claim's registration-order rendering would produce —
`VisitAll` re-orders the flags, so the block is not in declaration order. -/
theorem c7_counterexample :
    sortFlags c7wFS.formal = [c7aFlag, c7zFlag] ∧
    renderHelpCore c7wNode c7wFS 80 ≠ renderHelpDeclOrder c7wNode c7wFS 80 := by
  decide

/-- C7 (amended): in the rendered flag block, flags appear one line each in
lexicographic order of their names — the order of `VisitAll` — which is a
permutation of the registration order, sorted by the name ordering. -/
theorem c7_flags_lexicographic_amended (c : CommandType) (fs : FlagSet) (w : Int) :
    renderHelpCore c fs w = renderHelpOver c (sortFlags fs.formal) w ∧
    (sortFlags fs.formal).Perm fs.formal ∧
    (sortFlags fs.formal).Sorted flagLE :=
  ⟨rfl, List.perm_insertionSort flagLE fs.formal,
    List.sorted_insertionSort flagLE fs.formal⟩

/-! ## C5 — rendering depends on the map iteration order -/

/-- C5 fixture: first child. -/
def c5LeafA : CommandType :=
  .mk "a" "alpha" "" "" none []

/-- C5 fixture: second child. -/
def c5LeafB : CommandType :=
  .mk "b" "beta" "" "" none []

/-- C5 fixture: the node as rendered by a run whose map iteration happens
to enumerate `a` before `b`. -/
def c5Iter1 : CommandType :=
  .mk "example" "" "" "" (some demoFS) [("a", c5LeafA), ("b", c5LeafB)]

/-- C5 fixture: the same map (same entries, a permutation) enumerated `b`
before `a` — Go randomizes map iteration order between runs. -/
def c5Iter2 : CommandType :=
  .mk "example" "" "" "" (some demoFS) [("b", c5LeafB), ("a", c5LeafA)]

/-- C5 (code bug): `renderHelp` emits the sub-command listing in the map's
iteration order without sorting, so two enumerations of the *same*
sub-command map (the two lists below are permutations of one another)
yield different output — the stabilized, iteration-order-independent
listing the claim requires does not hold on the code. -/
theorem c5_subcommand_order_not_stabilized :
    c5Iter1.SubCommands.Perm c5Iter2.SubCommands ∧
    c5Iter1.Name = c5Iter2.Name ∧ c5Iter1.Flags = c5Iter2.Flags ∧
    c5Iter1.renderHelp 80 ≠ c5Iter2.renderHelp 80 := by
  refine ⟨?_, rfl, rfl, by decide⟩
  simp only [c5Iter1, c5Iter2, CommandType.SubCommands]
  exact List.Perm.swap _ _ _

/-! ## C3 — errors propagate unchanged along the visited path -/

/-- Where and how a resolution error originates.  The three `…Here`
constructors build the error at the current node with path `[c.Name]` —
exactly the constructions in `ProcessArgs` — and the single recursive
constructor `deeper` only prepends the current node's name to the path
while passing the error value through untouched.  Hence a derivation of
`FailsWith c args p e` exhibits the chain of visited nodes whose names
form `p`, ending at the origin node, and shows `e` identical to the value
built there. -/
inductive FailsWith : CommandType → List String → List String → UsageError → Prop where
  | flagHere (c : CommandType) (fs fs2 : FlagSet) (args : List String) (m : String) :
      c.Flags = some fs →
      ({ fs.Init c.Name .continueOnError with Usage := UsageHook.noop }).Parse args = (fs2, some m) →
      FailsWith c args [c.Name] (mkFlagError (c.setFlags (some fs2)) fs2 args)
  | missingHere (c : CommandType) (fs fs2 : FlagSet) (args : List String) :
      c.Flags = some fs →
      ({ fs.Init c.Name .continueOnError with Usage := UsageHook.noop }).Parse args = (fs2, none) →
      c.SubCommands ≠ [] →
      fs2.argsOut = [] →
      FailsWith c args [c.Name] (mkMissingError (c.setFlags (some fs2)) fs2 args)
  | invalidHere (c : CommandType) (fs fs2 : FlagSet) (args : List String)
      (hd : String) (tl : List String) :
      c.Flags = some fs →
      ({ fs.Init c.Name .continueOnError with Usage := UsageHook.noop }).Parse args = (fs2, none) →
      c.SubCommands ≠ [] →
      fs2.argsOut = hd :: tl →
      lookupSub c.SubCommands hd = none →
      FailsWith c args [c.Name] (mkInvalidError (c.setFlags (some fs2)) fs2 hd args)
  | deeper (c : CommandType) (fs fs2 : FlagSet) (args : List String)
      (hd : String) (tl : List String) (sc : CommandType) (p : List String)
      (e : UsageError) :
      c.Flags = some fs →
      ({ fs.Init c.Name .continueOnError with Usage := UsageHook.noop }).Parse args = (fs2, none) →
      c.SubCommands ≠ [] →
      fs2.argsOut = hd :: tl →
      lookupSub c.SubCommands hd = some sc →
      FailsWith sc tl p e →
      FailsWith c args (c.Name :: p) e

/-- Bounded-size auxiliary induction for the error-propagation theorem. -/
theorem processArgs_failsWith_aux :
    ∀ (n : Nat) (c : CommandType) (args : List String) (c2 : CommandType)
      (p : List String) (e : UsageError),
      sizeOf c ≤ n → c.ProcessArgs args = some (c2, p, some e) →
      FailsWith c args p e := by
  intro n
  induction n with
  | zero =>
    intro c args c2 p e hsz hpa
    cases c
    simp at hsz
  | succ n ih =>
    intro c args c2 p e hsz hpa
    unfold CommandType.ProcessArgs at hpa
    cases hf : c.Flags with
    | none => rw [hf] at hpa; cases hpa
    | some fs =>
      rw [hf] at hpa
      dsimp only at hpa
      cases hparse : ({ fs.Init c.Name .continueOnError with Usage := UsageHook.noop }).Parse args with
      | mk fs2 res =>
        cases res with
        | some m =>
          rw [hparse] at hpa
          dsimp only at hpa
          simp at hpa
          obtain ⟨h1, h2, h3⟩ := hpa
          subst h1; subst h2
          rw [← h3]
          exact FailsWith.flagHere c fs fs2 args m hf hparse
        | none =>
          rw [hparse] at hpa
          dsimp only at hpa
          by_cases hempty : c.SubCommands.isEmpty
          · rw [if_pos hempty] at hpa
            simp at hpa
          · rw [if_neg hempty] at hpa
            have hsubne : c.SubCommands ≠ [] := by
              intro habs
              rw [habs] at hempty
              exact hempty rfl
            cases hrem : fs2.argsOut with
            | nil =>
              rw [hrem] at hpa
              simp at hpa
              obtain ⟨h1, h2, h3⟩ := hpa
              subst h1; subst h2
              rw [← h3]
              exact FailsWith.missingHere c fs fs2 args hf hparse hsubne hrem
            | cons hd tl =>
              rw [hrem] at hpa
              dsimp only at hpa
              split at hpa
              · next hlk =>
                  simp at hpa
                  obtain ⟨h1, h2, h3⟩ := hpa
                  subst h1; subst h2
                  rw [← h3]
                  exact FailsWith.invalidHere c fs fs2 args hd tl hf hparse hsubne hrem hlk
              · next sc hlk =>
                  cases hrec : sc.ProcessArgs tl with
                  | none => rw [hrec] at hpa; cases hpa
                  | some r =>
                    obtain ⟨sc2, cp, err⟩ := r
                    rw [hrec] at hpa
                    dsimp only at hpa
                    simp at hpa
                    obtain ⟨h1, h2, h3⟩ := hpa
                    have hsz2 : sizeOf sc ≤ n := by
                      have hx := lookupSub_sizeOf c.SubCommands hd sc hlk
                      have hy := subCommands_sizeOf c
                      omega
                    subst h2
                    cases err with
                    | none => cases h3
                    | some e2 =>
                      simp at h3
                      cases h3
                      exact FailsWith.deeper c fs fs2 args hd tl sc cp _ hf hparse
                        hsubne hrem hlk (ih sc tl sc2 cp _ hsz2 hrec)

/-- C3: whenever resolution fails, the returned path is exactly the ordered
sequence of node names from the root down to and including the node where
the error originated, and the error delivered to the top-level caller
(kind, message, node reference, args) is the very value constructed at the
point of origin: the `FailsWith` derivation's only recursive step prepends
the enclosing node's name and leaves the error untouched. -/
theorem c3_error_propagates_unchanged (c : CommandType) (args : List String)
    (c2 : CommandType) (p : List String) (e : UsageError)
    (h : c.ProcessArgs args = some (c2, p, some e)) : FailsWith c args p e :=
  processArgs_failsWith_aux (sizeOf c) c args c2 p e (le_refl _) h

/-- C3 witness grandchild. -/
def c3wGrand : CommandType :=
  .mk "y" "grand" "" "" (some demoFS) []

/-- C3 witness child: has a sub-command, so an empty remainder raises a
`MissingCommandError` at depth one. -/
def c3wChild : CommandType :=
  .mk "x" "child" "" "" (some demoFS) [("y", c3wGrand)]

/-- C3 witness root. -/
def c3wRoot : CommandType :=
  .mk "root" "" "" "" (some demoFS) [("x", c3wChild)]

/-- C3 witness child state after its parse. -/
def c3wChildUpd : CommandType :=
  c3wChild.setFlags (some (demoFSAfter "x" []))

/-- C3 witness tree state after the full call. -/
def c3wRootUpd : CommandType :=
  (c3wRoot.setFlags (some (demoFSAfter "root" ["x"]))).updateSubCmd "x" c3wChildUpd

/-- C3 witness: on `["x"]` the error originates at the child `x` and
reaches the caller unchanged with path `["root", "x"]`. -/
theorem c3_witness :
    FailsWith c3wRoot ["x"] ["root", "x"]
      (mkMissingError c3wChildUpd (demoFSAfter "x" []) []) :=
  c3_error_propagates_unchanged c3wRoot ["x"] c3wRootUpd ["root", "x"]
    (mkMissingError c3wChildUpd (demoFSAfter "x" []) [])
    (by simp [CommandType.ProcessArgs, c3wRoot, c3wChild, c3wRootUpd, c3wChildUpd,
      CommandType.Flags, CommandType.Name, CommandType.SubCommands, FlagSet.Init,
      FlagSet.Parse, demoFS, demoParse, demoFSAfter, CommandType.setFlags,
      applyAssignments, lookupSub, CommandType.updateSubCmd, updateEntry])

/-! ## C9 — what a resolution call may mutate -/

/-- Field-wise relation between a registered flag before and after a
parse: only the current `value` may change. -/
def flagShape (f g : GoFlag) : Prop :=
  g.name = f.name ∧ g.usage = f.usage ∧ g.defValue = f.defValue ∧ g.kind = f.kind

/-- `flagShape` is reflexive. -/
theorem flagShape_refl (f : GoFlag) : flagShape f f := ⟨rfl, rfl, rfl, rfl⟩

/-- `flagShape` is transitive. -/
theorem flagShape_trans {a b c : GoFlag} (h1 : flagShape a b) (h2 : flagShape b c) :
    flagShape a c :=
  ⟨h2.1.trans h1.1, h2.2.1.trans h1.2.1, h2.2.2.1.trans h1.2.2.1, h2.2.2.2.trans h1.2.2.2⟩

/-- Pointwise `flagShape` between a list and itself. -/
theorem forall2_flagShape_refl : ∀ l, List.Forall₂ flagShape l l := by
  intro l
  induction l with
  | nil => exact List.Forall₂.nil
  | cons a l ih => exact List.Forall₂.cons (flagShape_refl a) ih

/-- Pointwise `flagShape` composes. -/
theorem forall2_flagShape_trans : ∀ {l1 l2 l3 : List GoFlag},
    List.Forall₂ flagShape l1 l2 → List.Forall₂ flagShape l2 l3 →
    List.Forall₂ flagShape l1 l3 := by
  intro l1 l2 l3 h1
  induction h1 generalizing l3 with
  | nil => intro h2; cases h2; exact List.Forall₂.nil
  | cons hab h ih =>
    intro h2
    cases h2 with
    | cons hbc h2tail => exact List.Forall₂.cons (flagShape_trans hab hbc) (ih h2tail)

/-- One assignment only rewrites `value` fields. -/
theorem setValue_shape (l : List GoFlag) (n v : String) :
    List.Forall₂ flagShape l (setValue l n v) := by
  induction l with
  | nil => exact List.Forall₂.nil
  | cons f l ih =>
    simp only [setValue, List.map] at ih ⊢
    refine List.Forall₂.cons ?_ ih
    by_cases hn : f.name = n
    · rw [if_pos hn]
      exact ⟨rfl, rfl, rfl, rfl⟩
    · rw [if_neg hn]
      exact flagShape_refl f

/-- A whole parse's assignments only rewrite `value` fields. -/
theorem applyAssignments_shape : ∀ (as : List (String × String)) (l : List GoFlag),
    List.Forall₂ flagShape l (applyAssignments l as) := by
  intro as
  induction as with
  | nil => intro l; exact forall2_flagShape_refl l
  | cons nv as ih =>
    intro l
    exact forall2_flagShape_trans (setValue_shape l nv.1 nv.2) (ih (setValue l nv.1 nv.2))

/-- The admissible flag-set change at a node `ProcessArgs` visits, named
`nm`: flag values may be rewritten by the parse, the set is renamed to
`nm`, its error handling is reset to `ContinueOnError`, its `Usage` hook
is overwritten with the noop closure, its `parsed` bit is set, and the
positional remainder record may change — while the registered names,
usage texts, defaults, kinds and the external parse behavior stay
intact. -/
def VisitedFlags (nm : String) : Option FlagSet → Option FlagSet → Prop
  | some fs, some fs2 =>
      fs2.fsName = nm ∧ fs2.errorHandling = .continueOnError ∧
      fs2.Usage = UsageHook.noop ∧ fs2.parsed = true ∧
      fs2.parseBehavior = fs.parseBehavior ∧
      List.Forall₂ flagShape fs.formal fs2.formal
  | _, _ => False

/-- `Init` followed by `Parse` performs exactly the admissible change. -/
theorem Parse_visited (fs fs2 : FlagSet) (nm : String) (args : List String)
    (r : Option String)
    (hp : ({ fs.Init nm .continueOnError with Usage := UsageHook.noop }).Parse args = (fs2, r)) :
    VisitedFlags nm (some fs) (some fs2) := by
  unfold FlagSet.Parse at hp
  cases hb : ({ fs.Init nm .continueOnError with Usage := UsageHook.noop }).parseBehavior args with
  | success as rem =>
    rw [hb] at hp
    dsimp only at hp
    cases hp
    exact ⟨rfl, rfl, rfl, rfl, rfl, applyAssignments_shape as fs.formal⟩
  | failure as rem m =>
    rw [hb] at hp
    dsimp only at hp
    cases hp
    exact ⟨rfl, rfl, rfl, rfl, rfl, applyAssignments_shape as fs.formal⟩

/-- The frame of one resolution call, relating the tree before and after:
the visited node keeps its name, descriptions and sub-command entries; its
flag-set undergoes exactly the admissible `VisitedFlags` change (values,
rename, error-mode reset, `Usage` noop overwrite, `parsed` bit); and at
most one child — the one whose key was dispatched, found by `lookupSub` —
changes, recursively by the same relation (`updateEntry` leaves every
other entry untouched).  Nodes off the dispatched chain are untouched. -/
inductive Frame : CommandType → CommandType → Prop where
  | stay (n sd ld h : String) (fl fl2 : Option FlagSet)
      (subs : List (String × CommandType)) :
      VisitedFlags n fl fl2 →
      Frame (.mk n sd ld h fl subs) (.mk n sd ld h fl2 subs)
  | descend (n sd ld h : String) (fl fl2 : Option FlagSet)
      (subs : List (String × CommandType)) (k : String) (sc sc2 : CommandType) :
      VisitedFlags n fl fl2 →
      lookupSub subs k = some sc →
      Frame sc sc2 →
      Frame (.mk n sd ld h fl subs) (.mk n sd ld h fl2 (updateEntry subs k sc2))

/-- Bounded-size auxiliary induction for the frame theorem. -/
theorem processArgs_frame_aux :
    ∀ (n : Nat) (c : CommandType) (args : List String) (c2 : CommandType)
      (p : List String) (err : Option UsageError),
      sizeOf c ≤ n → c.ProcessArgs args = some (c2, p, err) →
      Frame c c2 := by
  intro n
  induction n with
  | zero =>
    intro c args c2 p err hsz hpa
    cases c
    simp at hsz
  | succ n ih =>
    intro c args c2 p err hsz hpa
    obtain ⟨n1, sd, ld, hh, fl, subs⟩ := c
    unfold CommandType.ProcessArgs at hpa
    simp only [CommandType.Flags, CommandType.Name, CommandType.SubCommands,
      CommandType.setFlags, CommandType.updateSubCmd] at hpa hsz ⊢
    cases hf : fl with
    | none => rw [hf] at hpa; cases hpa
    | some fs =>
      rw [hf] at hpa
      dsimp only at hpa
      cases hparse : ({ fs.Init n1 .continueOnError with Usage := UsageHook.noop }).Parse args with
      | mk fs2 res =>
        cases res with
        | some m =>
          rw [hparse] at hpa
          dsimp only at hpa
          simp at hpa
          obtain ⟨h1, h2, h3⟩ := hpa
          rw [← h1]
          exact Frame.stay n1 sd ld hh (some fs) (some fs2) subs
            (Parse_visited fs fs2 n1 args (some m) hparse)
        | none =>
          rw [hparse] at hpa
          dsimp only at hpa
          by_cases hempty : subs.isEmpty
          · rw [if_pos hempty] at hpa
            simp at hpa
            obtain ⟨h1, h2, h3⟩ := hpa
            rw [← h1]
            exact Frame.stay n1 sd ld hh (some fs) (some fs2) subs
              (Parse_visited fs fs2 n1 args none hparse)
          · rw [if_neg hempty] at hpa
            cases hrem : fs2.argsOut with
            | nil =>
              rw [hrem] at hpa
              dsimp only at hpa
              simp at hpa
              obtain ⟨h1, h2, h3⟩ := hpa
              rw [← h1]
              exact Frame.stay n1 sd ld hh (some fs) (some fs2) subs
                (Parse_visited fs fs2 n1 args none hparse)
            | cons hd tl =>
              rw [hrem] at hpa
              dsimp only at hpa
              split at hpa
              · next hlk =>
                  simp at hpa
                  obtain ⟨h1, h2, h3⟩ := hpa
                  rw [← h1]
                  exact Frame.stay n1 sd ld hh (some fs) (some fs2) subs
                    (Parse_visited fs fs2 n1 args none hparse)
              · next sc hlk =>
                  cases hrec : sc.ProcessArgs tl with
                  | none => rw [hrec] at hpa; cases hpa
                  | some r =>
                    obtain ⟨sc2, cp, err2⟩ := r
                    rw [hrec] at hpa
                    dsimp only at hpa
                    simp at hpa
                    obtain ⟨h1, h2, h3⟩ := hpa
                    have hsz2 : sizeOf sc ≤ n := by
                      have hx := lookupSub_sizeOf subs hd sc hlk
                      simp at hsz
                      omega
                    rw [← h1]
                    exact Frame.descend n1 sd ld hh (some fs) (some fs2) subs hd sc sc2
                      (Parse_visited fs fs2 n1 args none hparse) hlk
                      (ih sc tl sc2 cp err2 hsz2 hrec)

/-- C9 counterexample flag-set: named `other`, exit-on-error, no flags. -/
def c9xFS : FlagSet :=
  { fsName := "other", errorHandling := .exitOnError, Usage := .custom 7,
    formal := [], argsOut := [], parsed := false, parseBehavior := demoParse }

/-- C9 counterexample node: a leaf named `n` owning `c9xFS`. -/
def c9xNode : CommandType :=
  .mk "n" "" "" "" (some c9xFS) []

/-- C9 counterexample: the node's flag-set after the call. -/
def c9xFS2 : FlagSet :=
  { fsName := "n", errorHandling := .continueOnError, Usage := .noop,
    formal := [], argsOut := [], parsed := true, parseBehavior := demoParse }

/-- C9 counterexample: a successful resolution on `[]` changes *no* flag
value (the set has no flags at all, `formal` is unchanged), yet the
visited node's flag-set does not come back otherwise unchanged: its name
flips from `other` to the node's name `n`, its error-handling mode from
`ExitOnError` to `ContinueOnError` — the `Flags.Init(c.Name,
ContinueOnError)` call `ProcessArgs` performs at every visited node (and
that the package's own doc comment announces) — its `Usage` hook is
overwritten with the noop closure (`c.Flags.Usage = f`), and its `parsed`
bit flips to true. -/
theorem c9_counterexample :
    c9xNode.ProcessArgs [] = some (c9xNode.setFlags (some c9xFS2), ["n"], none) ∧
    c9xFS.fsName = "other" ∧ c9xFS2.fsName = "n" ∧
    c9xFS.errorHandling = .exitOnError ∧ c9xFS2.errorHandling = .continueOnError ∧
    c9xFS.Usage = .custom 7 ∧ c9xFS2.Usage = .noop ∧
    c9xFS.parsed = false ∧ c9xFS2.parsed = true ∧
    c9xFS2.formal = c9xFS.formal := by
  refine ⟨?_, rfl, rfl, rfl, rfl, rfl, rfl, rfl, rfl, rfl⟩
  simp [CommandType.ProcessArgs, c9xNode, c9xFS, c9xFS2, CommandType.Flags,
    CommandType.Name, CommandType.SubCommands, FlagSet.Init, FlagSet.Parse,
    demoParse, CommandType.setFlags, applyAssignments]

/-- C9 (amended): under per-node flag-set ownership, a top-level resolve
mutates only the flag-sets of the nodes on the dispatched chain, and each
such flag-set changes only by the parse's value assignments plus the
per-visit reconfiguration — the `Init` renaming and error-handling reset,
the `Usage` hook overwritten with the noop closure, the `parsed` bit set
— and the positional-remainder record; every sub-command entry other than
the dispatched one — hence every node not visited — is returned
untouched, as the `Frame` relation states. -/
theorem c9_frame_amended (c : CommandType) (args : List String)
    (c2 : CommandType) (p : List String) (err : Option UsageError)
    (h : c.ProcessArgs args = some (c2, p, err)) : Frame c c2 :=
  processArgs_frame_aux (sizeOf c) c args c2 p err (le_refl _) h

/-- C9 witness node: a leaf named `w` with the demo flag-set. -/
def c9wNode : CommandType :=
  .mk "w" "" "" "" (some demoFS) []

/-- C9 witness: the concrete frame of a successful resolution of the leaf
on `["p"]`. -/
theorem c9_amended_witness :
    Frame c9wNode (c9wNode.setFlags (some (demoFSAfter "w" ["p"]))) :=
  c9_frame_amended c9wNode ["p"] (c9wNode.setFlags (some (demoFSAfter "w" ["p"])))
    ["w", "p"] none
    (by simp [CommandType.ProcessArgs, c9wNode, CommandType.Flags, CommandType.Name,
      CommandType.SubCommands, FlagSet.Init, FlagSet.Parse, demoFS, demoParse,
      demoFSAfter, CommandType.setFlags, applyAssignments])
